import Mathlib

/-!
Shallow embedding of the estimation core of `src/estimator.py`
(`RawMaterialEstimatorGUI.process_data`, lines 356-386, and
`RawMaterialEstimatorGUI.generate_job_number`, lines 468-491).

Numeric computation in the source uses Python floats; here it is modelled
in exact rational arithmetic (`ℚ`).  Python runtime errors (`ValueError`
from `max`/`min` on an empty sequence, from failed tuple unpacking or from
`int()` on a non-numeric string, and `TypeError` from subscripting an
`int`) are modelled as `Except.error` values of type `PyError`.  The
source defines no dedicated error classes (`NoSuitableCylinderError`,
`NoSuitableRollError`, `MalformedJobIdentifierError` do not occur in it),
so those names have no counterpart in this embedding.
-/

namespace Estimator

/-- The uncontrolled Python exceptions the estimation core can raise. -/
inductive PyError where
  | valueError : PyError
  | typeError  : PyError
deriving DecidableEq, Repr

/-! ### Models of the Python builtins used by the core -/

/-- Scanning step of Python `min(iterable, key=key)`: the running best is
replaced only when the candidate's key is strictly smaller, so the first
element attaining the minimal key wins. -/
def pyMinByAux (key : ℚ → ℚ) (best : ℚ) : List ℚ → ℚ
  | [] => best
  | a :: rest => pyMinByAux key (if key a < key best then a else best) rest

/-- Python `min(iterable, key=key)`; `none` models the `ValueError` raised
on an empty sequence. -/
def pyMinBy (key : ℚ → ℚ) : List ℚ → Option ℚ
  | [] => none
  | x :: xs => some (pyMinByAux key x xs)

/-- Python `max(iterable)`; `none` models the `ValueError` raised on an
empty sequence. -/
def pyMax : List ℚ → Option ℚ
  | [] => none
  | x :: xs => some (xs.foldl max x)

/-- Python `min(iterable)` (no key); `none` models the `ValueError` raised
on an empty sequence. -/
def pyMin : List ℚ → Option ℚ
  | [] => none
  | x :: xs => some (xs.foldl min x)

/-- Python `str(n)[-2:]` for a natural number `n` (slicing from the end
returns the whole string when it is shorter than two characters). -/
def lastTwo (n : Nat) : String :=
  let s := toString n
  String.mk (s.toList.drop (s.length - 2))

/-- Python `s.split("_")`: split at every separator, keeping empty parts. -/
def pySplit (sep : Char) (s : String) : List String :=
  (s.toList.splitOn sep).map String.mk

/-- Python `int(s)` on the nonnegative decimal strings used as sequence
numbers; `none` models the `ValueError` on a non-numeric string. -/
def parseNat (s : String) : Option Nat :=
  if s.toList ≠ [] ∧ s.toList.all Char.isDigit then
    some (s.toList.foldl (fun acc c => acc * 10 + (c.toNat - 48)) 0)
  else none

/-- Python `s.zfill(width)` on the sign-free digit strings produced by
`str` of a natural number: left-pad with `'0'` up to `width`. -/
def zfill (width : Nat) (s : String) : String :=
  String.mk (List.replicate (width - s.length) '0') ++ s

/-- The decimal digit characters of `n`, most significant first: the
spec-side characterization of Python `str(n)` (and of Lean's `Nat.repr`),
used to reason about the label and sequence strings. -/
def decimalDigits (n : Nat) : List Char :=
  if _h : n < 10 then [Nat.digitChar n]
  else decimalDigits (n / 10) ++ [Nat.digitChar (n % 10)]
termination_by n
decreasing_by
  exact Nat.div_lt_self (by omega) (by norm_num)

/-! ### The dimension/material calculator (`process_data`, lines 356-386) -/

/-- Line 365: `chosen_cylinder = min(AVAILABLE_CYLINDERS, key=lambda x:
abs(x - act_height_mm))`. -/
def chosen_cylinder (cylinders : List ℚ) (act_height_mm : ℚ) : Except PyError ℚ :=
  match pyMinBy (fun x => |x - act_height_mm|) cylinders with
  | some c => .ok c
  | none => .error .valueError

/-- Lines 368-370: `max([x for x in AVAILABLE_PAPER_ROLLS if x <=
act_width_mm])`. -/
def immediately_smaller_roll (rolls : List ℚ) (act_width_mm : ℚ) : Except PyError ℚ :=
  match pyMax (rolls.filter (fun x => x ≤ act_width_mm)) with
  | some r => .ok r
  | none => .error .valueError

/-- Lines 371-373: `min([x for x in AVAILABLE_PAPER_ROLLS if x >
act_width_mm])`. -/
def immediately_bigger_roll (rolls : List ℚ) (act_width_mm : ℚ) : Except PyError ℚ :=
  match pyMin (rolls.filter (fun x => act_width_mm < x)) with
  | some r => .ok r
  | none => .error .valueError

/-- Lines 368-377: both bounding rolls are computed (each raising
`ValueError` when its candidate list is empty), then the smaller is kept
when `act_width_mm - immediately_smaller_roll <= 5`, else the bigger. -/
def chosen_paper_roll (rolls : List ℚ) (act_width_mm : ℚ) : Except PyError ℚ :=
  match immediately_smaller_roll rolls act_width_mm with
  | .error e => .error e
  | .ok smaller =>
    match immediately_bigger_roll rolls act_width_mm with
    | .error e => .error e
    | .ok bigger =>
      if act_width_mm - smaller ≤ 5 then .ok smaller else .ok bigger

/-- The computed values of `process_data` (lines 356-386) that are written
into the output document (cells E19-E27, plus the intermediate actual
width). -/
structure EstimationResult where
  act_height_mm : ℚ
  act_width_mm : ℚ
  chosen_cylinder_mm : ℚ
  chosen_paper_roll_mm : ℚ
  weight_per_bag_kg : ℚ
  total_finished_weight_kg : ℚ
  total_weight_with_waste_kg : ℚ
  side_glue_kg : ℚ
  bottom_glue_kg : ℚ
  ink_kg : ℚ
deriving DecidableEq, Repr

/-- The arithmetic core of `process_data` (lines 356-386): actual print
height/width, equipment choices and material quantities. -/
def process_data (cylinders rolls : List ℚ) (w_in b_in h_in gsm : ℚ)
    (quantity : ℤ) : Except PyError EstimationResult :=
  let act_height := h_in + b_in / 2 + 1
  let act_height_mm := act_height * 25.4
  let act_width_in := 2 * (w_in + b_in) + 1
  let act_width_mm := act_width_in * 25.4
  match chosen_cylinder cylinders act_height_mm with
  | .error e => .error e
  | .ok cyl =>
    match chosen_paper_roll rolls act_width_mm with
    | .error e => .error e
    | .ok roll =>
      let mm_to_m : ℚ := 0.001
      let wpb := (cyl * roll) * mm_to_m ^ 2 * gsm
      let total_finish_weight := wpb * (quantity : ℚ) / 1000
      let total_weight := total_finish_weight / (1 - 0.06)
      let side_glue := 0.01 * wpb * (quantity : ℚ) / 1000
      let bottom_glue := 0.025 * wpb * (quantity : ℚ) / 1000
      let ink := 0.01 * wpb * (quantity : ℚ) / 1000
      .ok { act_height_mm := act_height_mm
            act_width_mm := act_width_mm
            chosen_cylinder_mm := cyl
            chosen_paper_roll_mm := roll
            weight_per_bag_kg := wpb
            total_finished_weight_kg := total_finish_weight
            total_weight_with_waste_kg := total_weight
            side_glue_kg := side_glue
            bottom_glue_kg := bottom_glue
            ink_kg := ink }

/-! ### The job number generator (`generate_job_number`, lines 468-491) -/

/-- Lines 471-474: the fiscal year label.  For `month >= 4` the source
builds `f"{str(year)[-2:]}-{str(year + 1)[-2:]}"`.  The other branch
evaluates `(current_year - 1)[-2:]`, which subscripts an `int` and raises
`TypeError`. -/
def financial_year (year month : Nat) : Except PyError String :=
  if 4 ≤ month then
    .ok (lastTwo year ++ "-" ++ lastTwo (year + 1))
  else
    .error .typeError

/-- Lines 479-491: from the fiscal label and the latest prior file name
(without extension), the next job number.  The unpacking
`file_year, file_number = file_name.split("_")` raises `ValueError` unless
the split has exactly two parts; `int(file_number)` is only evaluated in
the matching-year branch and raises `ValueError` on a non-numeric part. -/
def next_job_number (fy : String) (latest : Option String) : Except PyError String :=
  match latest with
  | none => .ok (fy ++ "_" ++ "0000001")
  | some file_name =>
    match pySplit '_' file_name with
    | [file_year, file_number] =>
      if file_year = fy then
        match parseNat file_number with
        | some n => .ok (fy ++ "_" ++ zfill 7 (toString (n + 1)))
        | none => .error .valueError
      else
        .ok (fy ++ "_" ++ "0000001")
    | _ => .error .valueError

/-- The whole of `generate_job_number` (lines 468-491), with the directory
scan abstracted into the optional latest prior file name. -/
def generate_job_number (year month : Nat) (latest : Option String) :
    Except PyError String :=
  match financial_year year month with
  | .error e => .error e
  | .ok fy => next_job_number fy latest

/-- Evaluation form of `|·|` on `ℚ`, used to compute with the cylinder
key `abs(x - act_height_mm)` on concrete inputs. -/
theorem abs_ite (a : ℚ) : |a| = if a < 0 then -a else a := by
  rcases lt_or_le a 0 with h | h
  · rw [abs_of_neg h, if_pos h]
  · rw [abs_of_nonneg h, if_neg (not_lt.mpr h)]

/-! ### Properties of the builtin models -/

/-- The scan of Python `min(·, key=·)` returns an element whose key is
minimal among the seed and the scanned elements. -/
theorem pyMinByAux_key_le (key : ℚ → ℚ) :
    ∀ (l : List ℚ) (b : ℚ), ∀ x ∈ b :: l, key (pyMinByAux key b l) ≤ key x := by
  intro l
  induction l with
  | nil =>
    intro b x hx
    rcases List.mem_singleton.mp hx with rfl
    simp [pyMinByAux]
  | cons a rest ih =>
    intro b x hx
    have hstep : pyMinByAux key b (a :: rest)
        = pyMinByAux key (if key a < key b then a else b) rest := rfl
    have hb'b : key (if key a < key b then a else b) ≤ key b := by
      by_cases h : key a < key b <;> simp [h, le_of_lt]
    have hb'a : key (if key a < key b then a else b) ≤ key a := by
      by_cases h : key a < key b <;> simp [h, le_of_not_lt]
    have hmin : key (pyMinByAux key (if key a < key b then a else b) rest)
        ≤ key (if key a < key b then a else b) :=
      ih _ _ (List.mem_cons_self _ _)
    rcases List.mem_cons.mp hx with rfl | hx'
    · exact hstep ▸ le_trans hmin hb'b
    · rcases List.mem_cons.mp hx' with rfl | hx''
      · exact hstep ▸ le_trans hmin hb'a
      · exact hstep ▸ ih _ x (List.mem_cons_of_mem _ hx'')

/-- The scan of Python `min(·, key=·)` returns the first element attaining
the minimal key: everything strictly before it has a strictly larger key,
everything after it a larger-or-equal one. -/
theorem pyMinByAux_split (key : ℚ → ℚ) :
    ∀ (l : List ℚ) (b : ℚ), ∃ l₁ l₂, b :: l = l₁ ++ pyMinByAux key b l :: l₂ ∧
      (∀ x ∈ l₁, key (pyMinByAux key b l) < key x) ∧
      (∀ x ∈ l₂, key (pyMinByAux key b l) ≤ key x) := by
  intro l
  induction l with
  | nil => exact fun b => ⟨[], [], by simp [pyMinByAux], by simp, by simp⟩
  | cons a rest ih =>
    intro b
    by_cases h : key a < key b
    · have hstep : pyMinByAux key b (a :: rest) = pyMinByAux key a rest := by
        simp [pyMinByAux, h]
      obtain ⟨l₁, l₂, heq, h₁, h₂⟩ := ih a
      refine ⟨b :: l₁, l₂, ?_, ?_, ?_⟩
      · rw [hstep, List.cons_append, ← heq]
      · intro x hx
        rw [hstep]
        rcases List.mem_cons.mp hx with hxb | hx'
        · subst hxb
          exact lt_of_le_of_lt
            (pyMinByAux_key_le key rest a a (List.mem_cons_self _ _)) h
        · exact h₁ x hx'
      · intro x hx; rw [hstep]; exact h₂ x hx
    · have hstep : pyMinByAux key b (a :: rest) = pyMinByAux key b rest := by
        simp [pyMinByAux, h]
      obtain ⟨l₁, l₂, heq, h₁, h₂⟩ := ih b
      cases l₁ with
      | nil =>
        simp only [List.nil_append] at heq
        injection heq with hb hrest
        refine ⟨[], a :: l₂, ?_, by simp, ?_⟩
        · rw [List.nil_append, hstep, ← hb, hrest]
        · intro x hx
          rw [hstep]
          rcases List.mem_cons.mp hx with hxa | hx'
          · subst hxa; rw [← hb]; exact le_of_not_lt h
          · exact h₂ x hx'
      | cons y t =>
        simp only [List.cons_append] at heq
        injection heq with hy hrest
        have hrb : key (pyMinByAux key b rest) < key b := by
          have := h₁ y (List.mem_cons_self _ _); rwa [← hy] at this
        refine ⟨b :: a :: t, l₂, ?_, ?_, ?_⟩
        · rw [hstep, List.cons_append, List.cons_append, ← hrest]
        · intro x hx
          rw [hstep]
          rcases List.mem_cons.mp hx with hxb | hx'
          · subst hxb; exact hrb
          · rcases List.mem_cons.mp hx' with hxa | hx''
            · subst hxa; exact lt_of_lt_of_le hrb (le_of_not_lt h)
            · exact h₁ x (List.mem_cons_of_mem _ hx'')
        · intro x hx; rw [hstep]; exact h₂ x hx

/-- Python `min(·, key=·)` on a nonempty list: the result is the first
element of the list attaining the minimal key. -/
theorem pyMinBy_ok {key : ℚ → ℚ} {l : List ℚ} {m : ℚ} (h : pyMinBy key l = some m) :
    (∃ l₁ l₂, l = l₁ ++ m :: l₂ ∧ (∀ x ∈ l₁, key m < key x)) ∧
      ∀ x ∈ l, key m ≤ key x := by
  cases l with
  | nil => simp [pyMinBy] at h
  | cons x xs =>
    have hm : pyMinByAux key x xs = m := by simpa [pyMinBy] using h
    obtain ⟨l₁, l₂, heq, h₁, _⟩ := pyMinByAux_split key xs x
    rw [hm] at heq h₁
    refine ⟨⟨l₁, l₂, heq, h₁⟩, ?_⟩
    intro y hy
    have := pyMinByAux_key_le key xs x y hy
    rwa [hm] at this

/-- `pyMinBy` succeeds exactly on nonempty lists. -/
theorem pyMinBy_of_ne_nil (key : ℚ → ℚ) {l : List ℚ} (h : l ≠ []) :
    ∃ m, pyMinBy key l = some m := by
  cases l with
  | nil => exact absurd rfl h
  | cons x xs => exact ⟨pyMinByAux key x xs, rfl⟩

/-- Every element of the seed-plus-list is at most the max-scan result. -/
theorem le_foldl_max : ∀ (l : List ℚ) (b : ℚ), ∀ x ∈ b :: l, x ≤ l.foldl max b := by
  intro l
  induction l with
  | nil =>
    intro b x hx
    rcases List.mem_singleton.mp hx with rfl
    simp
  | cons a rest ih =>
    intro b x hx
    have hstep : (a :: rest).foldl max b = rest.foldl max (max b a) := rfl
    have hmax : max b a ≤ rest.foldl max (max b a) :=
      ih (max b a) (max b a) (List.mem_cons_self _ _)
    rcases List.mem_cons.mp hx with rfl | hx'
    · exact hstep ▸ le_trans (le_max_left _ _) hmax
    · rcases List.mem_cons.mp hx' with rfl | hx''
      · exact hstep ▸ le_trans (le_max_right _ _) hmax
      · exact hstep ▸ ih (max b a) x (List.mem_cons_of_mem _ hx'')

/-- The max-scan result is the seed or one of the list's elements. -/
theorem foldl_max_mem : ∀ (l : List ℚ) (b : ℚ), l.foldl max b ∈ b :: l := by
  intro l
  induction l with
  | nil => intro b; simp
  | cons a rest ih =>
    intro b
    have hstep : (a :: rest).foldl max b = rest.foldl max (max b a) := rfl
    have hmem := ih (max b a)
    rw [hstep]
    rcases List.mem_cons.mp hmem with hEq | hmem'
    · rcases max_choice b a with hb | ha
      · rw [hEq, hb]; exact List.mem_cons_self _ _
      · rw [hEq, ha]; exact List.mem_cons_of_mem _ (List.mem_cons_self _ _)
    · exact List.mem_cons_of_mem _ (List.mem_cons_of_mem _ hmem')

/-- The min-scan result is at most every element of the seed-plus-list. -/
theorem foldl_min_le : ∀ (l : List ℚ) (b : ℚ), ∀ x ∈ b :: l, l.foldl min b ≤ x := by
  intro l
  induction l with
  | nil =>
    intro b x hx
    rcases List.mem_singleton.mp hx with rfl
    simp
  | cons a rest ih =>
    intro b x hx
    have hstep : (a :: rest).foldl min b = rest.foldl min (min b a) := rfl
    have hmin : rest.foldl min (min b a) ≤ min b a :=
      ih (min b a) (min b a) (List.mem_cons_self _ _)
    rcases List.mem_cons.mp hx with rfl | hx'
    · exact hstep ▸ le_trans hmin (min_le_left _ _)
    · rcases List.mem_cons.mp hx' with rfl | hx''
      · exact hstep ▸ le_trans hmin (min_le_right _ _)
      · exact hstep ▸ ih (min b a) x (List.mem_cons_of_mem _ hx'')

/-- The min-scan result is the seed or one of the list's elements. -/
theorem foldl_min_mem : ∀ (l : List ℚ) (b : ℚ), l.foldl min b ∈ b :: l := by
  intro l
  induction l with
  | nil => intro b; simp
  | cons a rest ih =>
    intro b
    have hstep : (a :: rest).foldl min b = rest.foldl min (min b a) := rfl
    have hmem := ih (min b a)
    rw [hstep]
    rcases List.mem_cons.mp hmem with hEq | hmem'
    · rcases min_choice b a with hb | ha
      · rw [hEq, hb]; exact List.mem_cons_self _ _
      · rw [hEq, ha]; exact List.mem_cons_of_mem _ (List.mem_cons_self _ _)
    · exact List.mem_cons_of_mem _ (List.mem_cons_of_mem _ hmem')

/-- Python `max` on a nonempty list returns its greatest element. -/
theorem pyMax_ok {l : List ℚ} {m : ℚ} (h : pyMax l = some m) :
    m ∈ l ∧ ∀ x ∈ l, x ≤ m := by
  cases l with
  | nil => simp [pyMax] at h
  | cons x xs =>
    have hm : xs.foldl max x = m := by simpa [pyMax] using h
    exact ⟨hm ▸ foldl_max_mem xs x, fun y hy => hm ▸ le_foldl_max xs x y hy⟩

/-- `pyMax` succeeds exactly on nonempty lists. -/
theorem pyMax_of_ne_nil {l : List ℚ} (h : l ≠ []) : ∃ m, pyMax l = some m := by
  cases l with
  | nil => exact absurd rfl h
  | cons x xs => exact ⟨xs.foldl max x, rfl⟩

/-- Python `min` on a nonempty list returns its least element. -/
theorem pyMin_ok {l : List ℚ} {m : ℚ} (h : pyMin l = some m) :
    m ∈ l ∧ ∀ x ∈ l, m ≤ x := by
  cases l with
  | nil => simp [pyMin] at h
  | cons x xs =>
    have hm : xs.foldl min x = m := by simpa [pyMin] using h
    exact ⟨hm ▸ foldl_min_mem xs x, fun y hy => hm ▸ foldl_min_le xs x y hy⟩

/-- `pyMin` succeeds exactly on nonempty lists. -/
theorem pyMin_of_ne_nil {l : List ℚ} (h : l ≠ []) : ∃ m, pyMin l = some m := by
  cases l with
  | nil => exact absurd rfl h
  | cons x xs => exact ⟨xs.foldl min x, rfl⟩

/-! ### Properties of the selection functions -/

/-- A successful `immediately_smaller_roll` is the largest catalog width
that is at most the actual width. -/
theorem immediately_smaller_roll_ok {rolls : List ℚ} {w s : ℚ}
    (h : immediately_smaller_roll rolls w = .ok s) :
    s ∈ rolls ∧ s ≤ w ∧ ∀ x ∈ rolls, x ≤ w → x ≤ s := by
  unfold immediately_smaller_roll at h
  cases hf : pyMax (rolls.filter fun x => x ≤ w) with
  | none => rw [hf] at h; cases h
  | some m =>
    rw [hf] at h
    obtain ⟨hm, hmax⟩ := pyMax_ok hf
    have hs : m = s := by simpa using h
    subst hs
    obtain ⟨hmem, hle⟩ := List.mem_filter.mp hm
    refine ⟨hmem, by simpa using hle, ?_⟩
    intro x hx hxw
    exact hmax x (List.mem_filter.mpr ⟨hx, by simpa using hxw⟩)

/-- `immediately_smaller_roll` succeeds as soon as some catalog width is
at most the actual width. -/
theorem immediately_smaller_roll_of_exists {rolls : List ℚ} {w a : ℚ}
    (ha : a ∈ rolls) (haw : a ≤ w) :
    ∃ s, immediately_smaller_roll rolls w = .ok s := by
  have hne : rolls.filter (fun x => x ≤ w) ≠ [] :=
    List.ne_nil_of_mem (List.mem_filter.mpr ⟨ha, by simpa using haw⟩)
  obtain ⟨m, hm⟩ := pyMax_of_ne_nil hne
  exact ⟨m, by simp [immediately_smaller_roll, hm]⟩

/-- A successful `immediately_bigger_roll` is the smallest catalog width
strictly above the actual width. -/
theorem immediately_bigger_roll_ok {rolls : List ℚ} {w b : ℚ}
    (h : immediately_bigger_roll rolls w = .ok b) :
    b ∈ rolls ∧ w < b ∧ ∀ x ∈ rolls, w < x → b ≤ x := by
  unfold immediately_bigger_roll at h
  cases hf : pyMin (rolls.filter fun x => w < x) with
  | none => rw [hf] at h; cases h
  | some m =>
    rw [hf] at h
    obtain ⟨hm, hmin⟩ := pyMin_ok hf
    have hs : m = b := by simpa using h
    subst hs
    obtain ⟨hmem, hlt⟩ := List.mem_filter.mp hm
    refine ⟨hmem, by simpa using hlt, ?_⟩
    intro x hx hxw
    exact hmin x (List.mem_filter.mpr ⟨hx, by simpa using hxw⟩)

/-- `immediately_bigger_roll` succeeds as soon as some catalog width is
strictly above the actual width. -/
theorem immediately_bigger_roll_of_exists {rolls : List ℚ} {w a : ℚ}
    (ha : a ∈ rolls) (haw : w < a) :
    ∃ b, immediately_bigger_roll rolls w = .ok b := by
  have hne : rolls.filter (fun x => w < x) ≠ [] :=
    List.ne_nil_of_mem (List.mem_filter.mpr ⟨ha, by simpa using haw⟩)
  obtain ⟨m, hm⟩ := pyMin_of_ne_nil hne
  exact ⟨m, by simp [immediately_bigger_roll, hm]⟩

/-- A successful roll choice decomposes into both bounding rolls and the
5 mm tie-break. -/
theorem chosen_paper_roll_cases {rolls : List ℚ} {w r : ℚ}
    (h : chosen_paper_roll rolls w = .ok r) :
    ∃ s b, immediately_smaller_roll rolls w = .ok s ∧
      immediately_bigger_roll rolls w = .ok b ∧
      r = if w - s ≤ 5 then s else b := by
  unfold chosen_paper_roll at h
  cases hs : immediately_smaller_roll rolls w with
  | error e => rw [hs] at h; cases h
  | ok s =>
    rw [hs] at h
    cases hb : immediately_bigger_roll rolls w with
    | error e => rw [hb] at h; cases h
    | ok b =>
      rw [hb] at h
      refine ⟨s, b, rfl, rfl, ?_⟩
      by_cases hc : w - s ≤ 5
      · rw [if_pos hc]; simpa [hc] using h.symm
      · rw [if_neg hc]; simpa [hc] using h.symm

/-- A successfully chosen roll comes from the catalog. -/
theorem chosen_paper_roll_mem {rolls : List ℚ} {w r : ℚ}
    (h : chosen_paper_roll rolls w = .ok r) : r ∈ rolls := by
  obtain ⟨s, b, hs, hb, hr⟩ := chosen_paper_roll_cases h
  subst hr
  by_cases hc : w - s ≤ 5
  · rw [if_pos hc]; exact (immediately_smaller_roll_ok hs).1
  · rw [if_neg hc]; exact (immediately_bigger_roll_ok hb).1

/-- A successful cylinder choice is the first catalog element of minimal
distance to the actual height. -/
theorem chosen_cylinder_ok {cyls : List ℚ} {h c : ℚ}
    (hc : chosen_cylinder cyls h = .ok c) :
    (∃ l₁ l₂, cyls = l₁ ++ c :: l₂ ∧ ∀ x ∈ l₁, |c - h| < |x - h|) ∧
      ∀ x ∈ cyls, |c - h| ≤ |x - h| := by
  unfold chosen_cylinder at hc
  cases hm : pyMinBy (fun x => |x - h|) cyls with
  | none => rw [hm] at hc; cases hc
  | some m =>
    rw [hm] at hc
    have he : m = c := by simpa using hc
    subst he
    exact pyMinBy_ok hm

/-- A successfully chosen cylinder comes from the catalog. -/
theorem chosen_cylinder_mem {cyls : List ℚ} {h c : ℚ}
    (hc : chosen_cylinder cyls h = .ok c) : c ∈ cyls := by
  obtain ⟨⟨l₁, l₂, heq, _⟩, _⟩ := chosen_cylinder_ok hc
  rw [heq]
  exact List.mem_append_right _ (List.mem_cons_self _ _)

/-- `chosen_cylinder` succeeds exactly on nonempty catalogs. -/
theorem chosen_cylinder_of_ne_nil {cyls : List ℚ} (h : ℚ) (hne : cyls ≠ []) :
    ∃ c, chosen_cylinder cyls h = .ok c := by
  obtain ⟨m, hm⟩ := pyMinBy_of_ne_nil (fun x => |x - h|) hne
  exact ⟨m, by simp [chosen_cylinder, hm]⟩

/-- Unfolding of a successful `process_data` run: the chosen sizes come
from the two selection functions at the computed actual dimensions, and
every output field satisfies its defining formula. -/
theorem process_data_fields {cyls rolls : List ℚ} {w b h gsm : ℚ} {q : ℤ}
    {r : EstimationResult}
    (hr : process_data cyls rolls w b h gsm q = .ok r) :
    chosen_cylinder cyls ((h + b / 2 + 1) * 25.4) = .ok r.chosen_cylinder_mm ∧
    chosen_paper_roll rolls ((2 * (w + b) + 1) * 25.4) = .ok r.chosen_paper_roll_mm ∧
    r.act_height_mm = (h + b / 2 + 1) * 25.4 ∧
    r.act_width_mm = (2 * (w + b) + 1) * 25.4 ∧
    r.weight_per_bag_kg = r.chosen_cylinder_mm * r.chosen_paper_roll_mm * (0.001 : ℚ) ^ 2 * gsm ∧
    r.total_finished_weight_kg = r.weight_per_bag_kg * (q : ℚ) / 1000 ∧
    r.total_weight_with_waste_kg = r.total_finished_weight_kg / (1 - 0.06) ∧
    r.side_glue_kg = 0.01 * r.weight_per_bag_kg * (q : ℚ) / 1000 ∧
    r.bottom_glue_kg = 0.025 * r.weight_per_bag_kg * (q : ℚ) / 1000 ∧
    r.ink_kg = 0.01 * r.weight_per_bag_kg * (q : ℚ) / 1000 := by
  simp only [process_data] at hr
  cases hc : chosen_cylinder cyls ((h + b / 2 + 1) * 25.4) with
  | error e => rw [hc] at hr; cases hr
  | ok cyl =>
    rw [hc] at hr
    cases hp : chosen_paper_roll rolls ((2 * (w + b) + 1) * 25.4) with
    | error e => rw [hp] at hr; cases hr
    | ok roll =>
      rw [hp] at hr
      injection hr with hrv
      subst hrv
      exact ⟨rfl, rfl, rfl, rfl, rfl, rfl, rfl, rfl, rfl, rfl⟩

/-- The length of a zero-filled string is the target width or the
original length, whichever is larger. -/
theorem zfill_length (w : Nat) (s : String) : (zfill w s).length = max w s.length := by
  simp only [zfill, String.length_append, String.length_mk, List.length_replicate]
  omega

/-! ### Decimal-representation lemmas: `Nat.repr` produces exactly the
decimal digits of its argument -/

/-- With sufficient fuel, the core of `Nat.repr` accumulates exactly the
decimal digits. -/
theorem toDigitsCore_eq_decimalDigits :
    ∀ (f n : Nat) (acc : List Char), n < f →
      Nat.toDigitsCore 10 f n acc = decimalDigits n ++ acc := by
  intro f
  induction f with
  | zero => intro n acc h; omega
  | succ f ih =>
    intro n acc h
    simp only [Nat.toDigitsCore]
    by_cases h10 : n / 10 = 0
    · have hn : n < 10 := by omega
      rw [if_pos h10, decimalDigits, dif_pos hn, Nat.mod_eq_of_lt hn,
        List.singleton_append]
    · have hn : ¬ n < 10 := by omega
      have hlt : n / 10 < f := by omega
      rw [if_neg h10, decimalDigits, dif_neg hn, List.append_assoc,
        List.singleton_append, ih (n / 10) _ hlt]

/-- The characters of `str(n)` are exactly the decimal digits of `n`. -/
theorem toString_nat_toList (n : Nat) : (toString n).toList = decimalDigits n := by
  show (Nat.repr n).toList = decimalDigits n
  rw [Nat.repr, Nat.toDigits, toDigitsCore_eq_decimalDigits (n + 1) n [] (by omega)]
  simp [List.asString, String.toList]

/-- A natural number has at least one decimal digit. -/
theorem decimalDigits_ne_nil (n : Nat) : decimalDigits n ≠ [] := by
  rw [decimalDigits]
  by_cases h : n < 10 <;> simp [h]

/-- `Nat.digitChar` of a value below 10 is a digit character. -/
theorem digitChar_isDigit {m : Nat} (h : m < 10) : (Nat.digitChar m).isDigit = true := by
  interval_cases m <;> decide

/-- The ASCII value of `Nat.digitChar` recovers the digit. -/
theorem digitChar_toNat {m : Nat} (h : m < 10) : (Nat.digitChar m).toNat - 48 = m := by
  interval_cases m <;> decide

/-- Every character of a decimal representation is a digit. -/
theorem decimalDigits_all_digit : ∀ n, ∀ c ∈ decimalDigits n, c.isDigit = true := by
  intro n
  induction n using Nat.strong_induction_on with
  | _ n ih =>
    intro c hc
    rw [decimalDigits] at hc
    by_cases h : n < 10
    · rw [dif_pos h] at hc
      rcases List.mem_singleton.mp hc with rfl
      exact digitChar_isDigit h
    · rw [dif_neg h] at hc
      rcases List.mem_append.mp hc with hc' | hc'
      · exact ih (n / 10) (Nat.div_lt_self (by omega) (by norm_num)) c hc'
      · rcases List.mem_singleton.mp hc' with rfl
        exact digitChar_isDigit (Nat.mod_lt _ (by norm_num))

/-- A number of at least 10 has at least two decimal digits. -/
theorem decimalDigits_two_le_length {n : Nat} (h : 10 ≤ n) :
    2 ≤ (decimalDigits n).length := by
  rw [decimalDigits, dif_neg (by omega)]
  have := List.length_pos.mpr (decimalDigits_ne_nil (n / 10))
  simp only [List.length_append, List.length_cons, List.length_nil]
  omega

/-- Folding the base-10 parsing step over the decimal digits of `n`
recovers `n` (shifted past the accumulator). -/
theorem foldl_decimalDigits : ∀ n a : Nat,
    (decimalDigits n).foldl (fun acc c => acc * 10 + (c.toNat - 48)) a
      = a * 10 ^ (decimalDigits n).length + n := by
  intro n
  induction n using Nat.strong_induction_on with
  | _ n ih =>
    intro a
    rw [decimalDigits]
    by_cases h : n < 10
    · rw [dif_pos h]
      simp [digitChar_toNat h]
    · rw [dif_neg h, List.foldl_append,
        ih (n / 10) (Nat.div_lt_self (by omega) (by norm_num)) a]
      simp only [List.foldl_cons, List.foldl_nil, List.length_append,
        List.length_cons, List.length_nil]
      rw [digitChar_toNat (Nat.mod_lt _ (by norm_num)), pow_succ, ← mul_assoc]
      generalize a * 10 ^ (decimalDigits (n / 10)).length = y
      omega

/-- Leading zeros contribute nothing to the parsed value. -/
theorem foldl_replicate_zero (j : Nat) :
    (List.replicate j '0').foldl (fun acc c => acc * 10 + (c.toNat - 48)) 0 = 0 := by
  induction j with
  | zero => rfl
  | succ j ih => simpa [List.replicate_succ] using ih

/-- `int(str(m).zfill(7)) == m`: the zero-padded sequence string parses
back to the number it encodes. -/
theorem parseNat_zfill_toString (m : Nat) :
    parseNat (zfill 7 (toString m)) = some m := by
  have htl : (zfill 7 (toString m)).toList
      = List.replicate (7 - (toString m).length) '0' ++ decimalDigits m := by
    show (String.mk (List.replicate (7 - (toString m).length) '0') ++ toString m).data
      = List.replicate (7 - (toString m).length) '0' ++ decimalDigits m
    rw [String.data_append]
    show List.replicate (7 - (toString m).length) '0' ++ (toString m).toList = _
    rw [toString_nat_toList]
  rw [parseNat, htl]
  rw [if_pos]
  · rw [List.foldl_append, foldl_replicate_zero, foldl_decimalDigits m 0]
    simp
  · constructor
    · simp [decimalDigits_ne_nil m]
    · rw [List.all_append, Bool.and_eq_true]
      constructor
      · rw [List.all_eq_true]
        intro c hc
        rw [List.eq_of_mem_replicate hc]
        decide
      · rw [List.all_eq_true]
        exact fun c hc => decimalDigits_all_digit m c hc

/-- `str(n)[-2:]` for `n ≥ 10` is a pair of digit characters. -/
theorem lastTwo_shape {n : Nat} (hn : 10 ≤ n) :
    ∃ c₁ c₂, lastTwo n = String.mk [c₁, c₂] ∧ c₁.isDigit = true ∧ c₂.isDigit = true := by
  have hlist : (toString n).toList = decimalDigits n := toString_nat_toList n
  have hlen : (toString n).length = (decimalDigits n).length := by
    rw [← hlist]; rfl
  have h2 : 2 ≤ (decimalDigits n).length := decimalDigits_two_le_length hn
  have hdrop : ((decimalDigits n).drop ((decimalDigits n).length - 2)).length = 2 := by
    rw [List.length_drop]; omega
  have hsub : ∀ c ∈ (decimalDigits n).drop ((decimalDigits n).length - 2),
      c.isDigit = true := fun c hc =>
    decimalDigits_all_digit n c (List.mem_of_mem_drop hc)
  rcases hd : (decimalDigits n).drop ((decimalDigits n).length - 2)
      with _ | ⟨c₁, _ | ⟨c₂, _ | _⟩⟩ <;>
    rw [hd] at hdrop <;> simp at hdrop
  refine ⟨c₁, c₂, ?_, ?_, ?_⟩
  · rw [lastTwo]
    show String.mk ((toString n).toList.drop ((toString n).length - 2)) = _
    rw [hlist, hlen, hd]
  · exact hsub c₁ (by rw [hd]; simp)
  · exact hsub c₂ (by rw [hd]; simp)

/-- Concatenating two two-character strings around `"-"` forms the
five-character label. -/
theorem mk_append_label (c₁ c₂ c₃ c₄ : Char) :
    String.mk [c₁, c₂] ++ "-" ++ String.mk [c₃, c₄]
      = String.mk [c₁, c₂, '-', c₃, c₄] := rfl

/-- Every identifier the sequence step returns is the label, an
underscore, and the decimal digits of some number zero-padded to width 7:
the sequence parses back to that number and its length is the larger of 7
and the number's digit count. -/
theorem next_job_number_seq {fy : String} {latest : Option String} {r : String}
    (hr : next_job_number fy latest = .ok r) :
    ∃ seq m, r = fy ++ "_" ++ seq ∧ parseNat seq = some m ∧
      seq.length = max 7 (toString m).length := by
  cases latest with
  | none =>
    simp only [next_job_number] at hr
    injection hr with hr'
    exact ⟨"0000001", 1, hr'.symm, rfl, by decide⟩
  | some s =>
    simp only [next_job_number] at hr
    rcases hl : pySplit '_' s with _ | ⟨y, _ | ⟨num, _ | _⟩⟩ <;> simp only [hl] at hr
    · cases hr
    · cases hr
    · by_cases hy : y = fy
      · rw [if_pos hy] at hr
        cases hn : parseNat num with
        | none => rw [hn] at hr; cases hr
        | some n =>
          rw [hn] at hr
          injection hr with hr'
          exact ⟨zfill 7 (toString (n + 1)), n + 1, hr'.symm,
            parseNat_zfill_toString (n + 1), by rw [zfill_length]⟩
      · rw [if_neg hy] at hr
        injection hr with hr'
        exact ⟨"0000001", 1, hr'.symm, rfl, by decide⟩
    · cases hr

/-! ### The claims -/

/-- C1: for every non-empty paper-roll catalog and every actual print
width lying strictly between two catalog values, the chosen roll is the
largest catalog width at most `act_width_mm` when the gap to it is at most
5 mm (boundary inclusive), and otherwise the smallest catalog width
strictly greater; in particular for catalog `[300, 310, 400]`, width 305
yields 300 and width 306 yields 310. -/
theorem claim_C1_roll_selection :
    (∀ (rolls : List ℚ) (w a c : ℚ), a ∈ rolls → c ∈ rolls → a < w → w < c →
      ∃ s bg, s ∈ rolls ∧ s ≤ w ∧ (∀ x ∈ rolls, x ≤ w → x ≤ s) ∧
        bg ∈ rolls ∧ w < bg ∧ (∀ x ∈ rolls, w < x → bg ≤ x) ∧
        chosen_paper_roll rolls w = .ok (if w - s ≤ 5 then s else bg)) ∧
    chosen_paper_roll [300, 310, 400] 305 = .ok 300 ∧
    chosen_paper_roll [300, 310, 400] 306 = .ok 310 := by
  refine ⟨?_, ?_, ?_⟩
  · intro rolls w a c ha hc haw hwc
    obtain ⟨s, hs⟩ := immediately_smaller_roll_of_exists ha (le_of_lt haw)
    obtain ⟨bg, hbg⟩ := immediately_bigger_roll_of_exists hc hwc
    obtain ⟨hsmem, hsle, hsmax⟩ := immediately_smaller_roll_ok hs
    obtain ⟨hbmem, hblt, hbmin⟩ := immediately_bigger_roll_ok hbg
    refine ⟨s, bg, hsmem, hsle, hsmax, hbmem, hblt, hbmin, ?_⟩
    unfold chosen_paper_roll
    rw [hs, hbg]
    by_cases hcnd : w - s ≤ 5
    · simp [hcnd]
    · simp [hcnd]
  · norm_num [chosen_paper_roll, immediately_smaller_roll,
      immediately_bigger_roll, pyMax, pyMin, List.filter]
  · norm_num [chosen_paper_roll, immediately_smaller_roll,
      immediately_bigger_roll, pyMax, pyMin, List.filter]

/-- Witness for C1 at catalog `[300, 310, 400]` and width 305. -/
theorem claim_C1_witness :
    ∃ s bg, s ∈ [(300 : ℚ), 310, 400] ∧ s ≤ 305 ∧
      (∀ x ∈ [(300 : ℚ), 310, 400], x ≤ 305 → x ≤ s) ∧
      bg ∈ [(300 : ℚ), 310, 400] ∧ (305 : ℚ) < bg ∧
      (∀ x ∈ [(300 : ℚ), 310, 400], 305 < x → bg ≤ x) ∧
      chosen_paper_roll [300, 310, 400] 305 = .ok (if 305 - s ≤ 5 then s else bg) :=
  claim_C1_roll_selection.1 [300, 310, 400] 305 300 310 (by simp) (by simp)
    (by norm_num) (by norm_num)

/-- C2: the spec's fiscal-year rule (month ≥ 4 gives
`{this_year}-{next_year}` in two-digit form, otherwise
`{prev_year}-{this_year}`, so March 31 and April 1 differ).  The code
implements only the April-or-later branch; the January-March branch
evaluates `(current_year - 1)[-2:]`, subscripting an `int`, and raises
`TypeError`, so no label is produced there at all. -/
theorem claim_C2_fiscal_label :
    financial_year 2024 4 = .ok "24-25" ∧
    financial_year 2024 3 = .error .typeError ∧
    financial_year 2025 3 = .error .typeError := by
  exact ⟨rfl, rfl, rfl⟩

/-- C3: with a well-formed latest prior identifier
`{file_year}_{file_number}`, the next sequence is `file_number + 1`
zero-padded to 7 digits when `file_year` matches the current fiscal label,
and resets to `0000001` otherwise; with no prior identifier it starts at
`0000001`; the result is always `{fiscal label}_{sequence}`. -/
theorem claim_C3_next_sequence :
    (∀ (fy y num s : String) (n : Nat),
      pySplit '_' s = [y, num] → parseNat num = some n →
      next_job_number fy (some s) =
        .ok (fy ++ "_" ++ (if y = fy then zfill 7 (toString (n + 1)) else "0000001"))) ∧
    (∀ fy : String, next_job_number fy none = .ok (fy ++ "_" ++ "0000001")) ∧
    next_job_number "23-24" (some "23-24_0000042") = .ok "23-24_0000043" ∧
    next_job_number "23-24" (some "22-23_0000042") = .ok "23-24_0000001" := by
  refine ⟨?_, fun fy => rfl, rfl, rfl⟩
  intro fy y num s n hsplit hnum
  simp only [next_job_number, hsplit, hnum]
  by_cases hy : y = fy
  · simp [hy]
  · simp [hy]

/-- Witness for C3 at fiscal label `"23-24"` and prior
`"23-24_0000042"`. -/
theorem claim_C3_witness :
    next_job_number "23-24" (some "23-24_0000042") =
      .ok ("23-24" ++ "_" ++
        (if "23-24" = "23-24" then zfill 7 (toString (42 + 1)) else "0000001")) :=
  claim_C3_next_sequence.1 "23-24" "23-24" "0000042" "23-24_0000042" 42 rfl rfl

/-- C4: the claim states that an unsatisfiable catalog is rejected with a
dedicated `NoSuitableCylinderError`/`NoSuitableRollError`.  The code has no
such error classes: an empty cylinder catalog, a width below the smallest
roll, and a width at or above the largest roll all raise the uncontrolled
`ValueError` of `min`/`max` on an empty sequence (no value is silently
substituted, but no dedicated error exists either). -/
theorem claim_C4_no_dedicated_errors :
    chosen_cylinder [] 317.5 = .error .valueError ∧
    chosen_paper_roll [300, 310, 400] 299 = .error .valueError ∧
    chosen_paper_roll [300, 310, 400] 400 = .error .valueError := by
  refine ⟨rfl, ?_, ?_⟩ <;>
    norm_num [chosen_paper_roll, immediately_smaller_roll,
      immediately_bigger_roll, pyMax, pyMin, List.filter]

/-- C5: the claim states a malformed prior identifier raises a distinct
`MalformedJobIdentifierError`.  The code has no such class: an identifier
that does not split into exactly two parts (`"badformat"`) and a
non-integer number part in the matching fiscal year both raise the
uncontrolled `ValueError`, and a non-integer number part under a
non-matching fiscal year silently resets the sequence. -/
theorem claim_C5_malformed_identifier :
    next_job_number "23-24" (some "badformat") = .error .valueError ∧
    next_job_number "23-24" (some "23-24_00000x2") = .error .valueError ∧
    next_job_number "23-24" (some "22-23_00000x2") = .ok "23-24_0000001" := by
  exact ⟨rfl, rfl, rfl⟩

/-- C6: for every non-empty cylinder catalog, the chosen cylinder is the
catalog element minimizing `|candidate - act_height_mm|`, ties broken by
the first minimal element in catalog order (everything listed before the
choice is strictly farther); for `[100, 200, 300]` at height 190 the
result is 200. -/
theorem claim_C6_cylinder_selection :
    (∀ (cyls : List ℚ) (hgt : ℚ), cyls ≠ [] →
      ∃ c l₁ l₂, chosen_cylinder cyls hgt = .ok c ∧ cyls = l₁ ++ c :: l₂ ∧
        (∀ x ∈ cyls, |c - hgt| ≤ |x - hgt|) ∧
        (∀ x ∈ l₁, |c - hgt| < |x - hgt|)) ∧
    chosen_cylinder [100, 200, 300] 190 = .ok 200 := by
  constructor
  · intro cyls hgt hne
    obtain ⟨c, hc⟩ := chosen_cylinder_of_ne_nil hgt hne
    obtain ⟨⟨l₁, l₂, heq, hfirst⟩, hmin⟩ := chosen_cylinder_ok hc
    exact ⟨c, l₁, l₂, hc, heq, hmin, hfirst⟩
  · norm_num [chosen_cylinder, pyMinBy, pyMinByAux, abs_ite]

/-- Witness for C6 at catalog `[100, 200, 300]` and height 190. -/
theorem claim_C6_witness :
    ∃ c l₁ l₂, chosen_cylinder [100, 200, 300] 190 = .ok c ∧
      [(100 : ℚ), 200, 300] = l₁ ++ c :: l₂ ∧
      (∀ x ∈ [(100 : ℚ), 200, 300], |c - 190| ≤ |x - 190|) ∧
      (∀ x ∈ l₁, |c - 190| < |x - 190|) :=
  claim_C6_cylinder_selection.1 [100, 200, 300] 190 (by simp)

/-- C7: every successful run of the arithmetic pipeline satisfies the
exact formulas of the spec — actual height `(h + b/2 + 1) * 25.4`, actual
width `(2*(w+b) + 1) * 25.4`, weight per bag
`cylinder * roll * 1e-6 * gsm`, total finished weight `wpb * quantity /
1000`, total with waste `finished / (1 - 0.06) = finished / 0.94`, side
glue and ink `0.01 * wpb * quantity / 1000`, bottom glue `0.025 * wpb *
quantity / 1000`. -/
theorem claim_C7_arithmetic_pipeline :
    ∀ (cyls rolls : List ℚ) (w b h gsm : ℚ) (q : ℤ) (r : EstimationResult),
      process_data cyls rolls w b h gsm q = .ok r →
      r.act_height_mm = (h + b / 2 + 1) * 25.4 ∧
      r.act_width_mm = (2 * (w + b) + 1) * 25.4 ∧
      r.weight_per_bag_kg = r.chosen_cylinder_mm * r.chosen_paper_roll_mm * 1e-6 * gsm ∧
      r.total_finished_weight_kg = r.weight_per_bag_kg * (q : ℚ) / 1000 ∧
      r.total_weight_with_waste_kg = r.total_finished_weight_kg / (1 - 0.06) ∧
      r.total_weight_with_waste_kg = r.total_finished_weight_kg / 0.94 ∧
      r.side_glue_kg = 0.01 * r.weight_per_bag_kg * (q : ℚ) / 1000 ∧
      r.bottom_glue_kg = 0.025 * r.weight_per_bag_kg * (q : ℚ) / 1000 ∧
      r.ink_kg = 0.01 * r.weight_per_bag_kg * (q : ℚ) / 1000 := by
  intro cyls rolls w b h gsm q r hr
  obtain ⟨_, _, h1, h2, h3, h4, h5, h6, h7, h8⟩ := process_data_fields hr
  have hsq : ((0.001 : ℚ)) ^ 2 = 1e-6 := by norm_num
  have hwaste : (1 : ℚ) - 0.06 = 0.94 := by norm_num
  exact ⟨h1, h2, by rw [h3, hsq], h4, h5, by rw [h5, hwaste], h6, h7, h8⟩

/-- Witness for C7: a concrete run with cylinders `[100, 200, 300]`,
rolls `[300, 310, 400, 500]`, width 6 in, bottom 3 in, height 10 in,
100 gsm and quantity 10000.  The chosen sizes are 300 and 500, and each
output field equals its formula. -/
theorem claim_C7_witness :
    (317.5 : ℚ) = (10 + 3 / 2 + 1) * 25.4 ∧
    (482.6 : ℚ) = (2 * (6 + 3) + 1) * 25.4 ∧
    (15 : ℚ) = 300 * 500 * 1e-6 * 100 ∧
    (150 : ℚ) = 15 * ((10000 : ℤ) : ℚ) / 1000 ∧
    (7500 / 47 : ℚ) = 150 / (1 - 0.06) ∧
    (7500 / 47 : ℚ) = 150 / 0.94 ∧
    (1.5 : ℚ) = 0.01 * 15 * ((10000 : ℤ) : ℚ) / 1000 ∧
    (3.75 : ℚ) = 0.025 * 15 * ((10000 : ℤ) : ℚ) / 1000 ∧
    (1.5 : ℚ) = 0.01 * 15 * ((10000 : ℤ) : ℚ) / 1000 :=
  claim_C7_arithmetic_pipeline [100, 200, 300] [300, 310, 400, 500] 6 3 10 100 10000
    ⟨317.5, 482.6, 300, 500, 15, 150, 7500 / 47, 1.5, 3.75, 1.5⟩
    (by norm_num [process_data, chosen_cylinder, chosen_paper_roll,
      immediately_smaller_roll, immediately_bigger_roll, pyMinBy, pyMinByAux,
      pyMax, pyMin, List.filter, abs_ite])

/-- C8: for inputs inside the validated domain (width 5.25-13 in, bottom
2.5-7 in, height 6.75-17.75 in, grammage 55-150 gsm, quantity ≥ 10000)
and catalogs of positive values, every field of a produced
`EstimationResult` is a non-negative (and, being rational, finite)
number. -/
theorem claim_C8_nonneg :
    ∀ (cyls rolls : List ℚ) (w b h gsm : ℚ) (q : ℤ) (r : EstimationResult),
      5.25 ≤ w → w ≤ 13 → 2.5 ≤ b → b ≤ 7 → 6.75 ≤ h → h ≤ 17.75 →
      55 ≤ gsm → gsm ≤ 150 → 10000 ≤ q →
      (∀ c ∈ cyls, 0 < c) → (∀ x ∈ rolls, 0 < x) →
      process_data cyls rolls w b h gsm q = .ok r →
      0 ≤ r.act_height_mm ∧ 0 ≤ r.act_width_mm ∧ 0 ≤ r.chosen_cylinder_mm ∧
      0 ≤ r.chosen_paper_roll_mm ∧ 0 ≤ r.weight_per_bag_kg ∧
      0 ≤ r.total_finished_weight_kg ∧ 0 ≤ r.total_weight_with_waste_kg ∧
      0 ≤ r.side_glue_kg ∧ 0 ≤ r.bottom_glue_kg ∧ 0 ≤ r.ink_kg := by
  intro cyls rolls w b h gsm q r hw1 hw2 hb1 hb2 hh1 hh2 hg1 hg2 hq hcyls hrolls hr
  obtain ⟨hcyl, hroll, h1, h2, h3, h4, h5, h6, h7, h8⟩ := process_data_fields hr
  have hc0 : 0 < r.chosen_cylinder_mm := hcyls _ (chosen_cylinder_mem hcyl)
  have hp0 : 0 < r.chosen_paper_roll_mm := hrolls _ (chosen_paper_roll_mem hroll)
  have hq0 : (0 : ℚ) ≤ (q : ℚ) := by
    have : (0 : ℤ) ≤ q := le_trans (by norm_num) hq
    exact_mod_cast this
  have hg0 : (0 : ℚ) ≤ gsm := le_trans (by norm_num) hg1
  have hwpb : 0 ≤ r.weight_per_bag_kg := by
    rw [h3]
    exact mul_nonneg (mul_nonneg (mul_nonneg hc0.le hp0.le) (by norm_num)) hg0
  have htf : 0 ≤ r.total_finished_weight_kg := by
    rw [h4]
    exact div_nonneg (mul_nonneg hwpb hq0) (by norm_num)
  refine ⟨?_, ?_, hc0.le, hp0.le, hwpb, htf, ?_, ?_, ?_, ?_⟩
  · rw [h1]
    have : (0 : ℚ) ≤ h + b / 2 + 1 := by linarith
    exact mul_nonneg this (by norm_num)
  · rw [h2]
    have : (0 : ℚ) ≤ 2 * (w + b) + 1 := by linarith
    exact mul_nonneg this (by norm_num)
  · rw [h5]
    exact div_nonneg htf (by norm_num)
  · rw [h6]
    exact div_nonneg (mul_nonneg (mul_nonneg (by norm_num) hwpb) hq0) (by norm_num)
  · rw [h7]
    exact div_nonneg (mul_nonneg (mul_nonneg (by norm_num) hwpb) hq0) (by norm_num)
  · rw [h8]
    exact div_nonneg (mul_nonneg (mul_nonneg (by norm_num) hwpb) hq0) (by norm_num)

/-- Witness for C8 at the concrete run of the C7 witness: all ten result
fields are non-negative. -/
theorem claim_C8_witness :
    0 ≤ (317.5 : ℚ) ∧ 0 ≤ (482.6 : ℚ) ∧ 0 ≤ (300 : ℚ) ∧ 0 ≤ (500 : ℚ) ∧
    0 ≤ (15 : ℚ) ∧ 0 ≤ (150 : ℚ) ∧ 0 ≤ (7500 / 47 : ℚ) ∧
    0 ≤ (1.5 : ℚ) ∧ 0 ≤ (3.75 : ℚ) ∧ 0 ≤ (1.5 : ℚ) :=
  claim_C8_nonneg [100, 200, 300] [300, 310, 400, 500] 6 3 10 100 10000
    ⟨317.5, 482.6, 300, 500, 15, 150, 7500 / 47, 1.5, 3.75, 1.5⟩
    (by norm_num) (by norm_num) (by norm_num) (by norm_num) (by norm_num)
    (by norm_num) (by norm_num) (by norm_num) (by norm_num)
    (by intro c hc; fin_cases hc <;> norm_num)
    (by intro x hx; fin_cases hx <;> norm_num)
    (by norm_num [process_data, chosen_cylinder, chosen_paper_roll,
      immediately_smaller_roll, immediately_bigger_roll, pyMinBy, pyMinByAux,
      pyMax, pyMin, List.filter, abs_ite])

/-- C9 as stated is false: with prior identifier `"23-24_9999999"` in
fiscal year `"23-24"` the generator returns `"23-24_10000000"`, whose
sequence part has 8 digits, not exactly 7. -/
theorem claim_C9_counterexample :
    next_job_number "23-24" (some "23-24_9999999") = .ok "23-24_10000000" ∧
    pySplit '_' "23-24_10000000" = ["23-24", "10000000"] ∧
    ("10000000" : String).length = 8 := by
  exact ⟨rfl, rfl, rfl⟩

/-- C9 (amended): every identifier returned by the generator — run on a
current date, i.e. a calendar year of at least two digits (the generator
only succeeds for April-December months; see C2) — has the exact shape
`{fiscal_year_label}_{sequence}` where the label is a two-digit-pair
string `"YY-YY"` (two digit characters, a hyphen, two digit characters)
and the sequence is an integer zero-padded to width 7: it parses back to
a number `m` and its length is `max 7 (digit count of m)` — exactly 7
while `m` has at most 7 digits, and the digit count of `m` once it
exceeds 7 digits (as the counterexample shows for prior sequence
9999999). -/
theorem claim_C9_amended_shape :
    ∀ (year month : Nat) (latest : Option String) (r : String),
      10 ≤ year →
      generate_job_number year month latest = .ok r →
      ∃ c₁ c₂ c₃ c₄ seq m,
        r = String.mk [c₁, c₂, '-', c₃, c₄] ++ "_" ++ seq ∧
        c₁.isDigit = true ∧ c₂.isDigit = true ∧ c₃.isDigit = true ∧ c₄.isDigit = true ∧
        parseNat seq = some m ∧
        seq.length = max 7 (toString m).length ∧
        7 ≤ seq.length ∧
        ((toString m).length ≤ 7 → seq.length = 7) := by
  intro year month latest r hy hr
  simp only [generate_job_number] at hr
  cases hfy : financial_year year month with
  | error e => rw [hfy] at hr; cases hr
  | ok fy =>
    rw [hfy] at hr
    have hfy' : fy = lastTwo year ++ "-" ++ lastTwo (year + 1) := by
      unfold financial_year at hfy
      by_cases hm : 4 ≤ month
      · rw [if_pos hm] at hfy
        injection hfy with h
        exact h.symm
      · rw [if_neg hm] at hfy; cases hfy
    obtain ⟨c₁, c₂, h12, hd1, hd2⟩ := lastTwo_shape hy
    obtain ⟨c₃, c₄, h34, hd3, hd4⟩ := lastTwo_shape (show 10 ≤ year + 1 by omega)
    have hlabel : fy = String.mk [c₁, c₂, '-', c₃, c₄] := by
      rw [hfy', h12, h34, mk_append_label]
    obtain ⟨seq, m, hrseq, hparse, hlen⟩ := next_job_number_seq hr
    refine ⟨c₁, c₂, c₃, c₄, seq, m, ?_, hd1, hd2, hd3, hd4, hparse, hlen, ?_, ?_⟩
    · rw [hrseq, hlabel]
    · rw [hlen]; omega
    · intro h7; rw [hlen]; omega

/-- Witness for the amended C9: May 2023 with prior `"23-24_0000042"`
yields `"23-24_0000043"`, whose label and sequence have the asserted
shape. -/
theorem claim_C9_witness :
    10 ≤ 2023 ∧
    ∃ c₁ c₂ c₃ c₄ seq m,
      "23-24_0000043" = String.mk [c₁, c₂, '-', c₃, c₄] ++ "_" ++ seq ∧
      c₁.isDigit = true ∧ c₂.isDigit = true ∧ c₃.isDigit = true ∧ c₄.isDigit = true ∧
      parseNat seq = some m ∧
      seq.length = max 7 (toString m).length ∧
      7 ≤ seq.length ∧
      ((toString m).length ≤ 7 → seq.length = 7) :=
  ⟨by norm_num,
    claim_C9_amended_shape 2023 5 (some "23-24_0000042") "23-24_0000043"
      (by norm_num) rfl⟩

/-- C10: in every successful run, the computed ink quantity equals the
side-glue quantity, and the bottom-glue quantity is exactly 2.5 times the
side-glue quantity. -/
theorem claim_C10_glue_ink_identity :
    ∀ (cyls rolls : List ℚ) (w b h gsm : ℚ) (q : ℤ) (r : EstimationResult),
      process_data cyls rolls w b h gsm q = .ok r →
      r.ink_kg = r.side_glue_kg ∧ r.bottom_glue_kg = 2.5 * r.side_glue_kg := by
  intro cyls rolls w b h gsm q r hr
  obtain ⟨_, _, _, _, _, _, _, h6, h7, h8⟩ := process_data_fields hr
  constructor
  · rw [h8, h6]
  · rw [h7, h6]; ring

/-- Witness for C10 at the concrete run of the C7 witness. -/
theorem claim_C10_witness :
    (1.5 : ℚ) = 1.5 ∧ (3.75 : ℚ) = 2.5 * 1.5 :=
  claim_C10_glue_ink_identity [100, 200, 300] [300, 310, 400, 500] 6 3 10 100 10000
    ⟨317.5, 482.6, 300, 500, 15, 150, 7500 / 47, 1.5, 3.75, 1.5⟩
    (by norm_num [process_data, chosen_cylinder, chosen_paper_roll,
      immediately_smaller_roll, immediately_bigger_roll, pyMinBy, pyMinByAux,
      pyMax, pyMin, List.filter, abs_ite])

end Estimator

